import Mathlib

/-!
Verification of the local-file-search engine (`file_search.py`).

The definitions below are a shallow embedding of the search core:
the compiled keyword pattern (`re.compile(r'\b(?:…)\b', re.IGNORECASE)`
with `re.escape` on every keyword, so keywords are literal), the
Excel column encoder `_number_to_excel_column`, the per-format document
scanners in `search_document_for_keywords`, and the batch runner
`search_files_in_folder_gui`.  Strings are modelled as `List Char`
wrapped in `String`; fallible extraction is modelled with `Except`;
log and progress callbacks are modelled as accumulated event lists.
-/

/-- A word character in the sense of the regex `\w` (ASCII letters, digits,
underscore), which also determines `\b` word boundaries. -/
def isWordChar (c : Char) : Bool := c.isAlphanum || c == '_'

/-- Lower-case every character; models the effect of `re.IGNORECASE` by
comparing lower-cased keyword against lower-cased text. -/
def lowerL (l : List Char) : List Char := l.map Char.toLower

/-- The regex `\b` assertion at position `p` of text `T`: exactly one of the
character before `p` and the character at `p` is a word character
(out-of-range positions count as non-word). -/
def boundaryAt (T : List Char) (p : Nat) : Bool :=
  (decide (1 ≤ p) && isWordChar (T.getD (p - 1) ' ')) != isWordChar (T.getD p ' ')

/-- One alternative of the compiled pattern matching at position `i`:
`\b`, then the literal keyword case-insensitively, then `\b`. -/
def wordAt (k T : List Char) (i : Nat) : Bool :=
  boundaryAt T i && (((lowerL T).drop i).take k.length == lowerL k) && boundaryAt T (i + k.length)

/-- `Matcher.search`: the compiled alternation matches somewhere in the text.
`re.search` scans every start position. -/
def matcherMatches (alts : List (List Char)) (T : List Char) : Bool :=
  (List.range (T.length + 1)).any fun i => alts.any fun k => wordAt k T i

/-- The alternatives of the pattern `r'\b(?:' + '|'.join(escape k) + r')\b'`.
For an empty keyword list `'|'.join` yields the empty string, so the pattern
`\b(?:)\b` has the single empty alternative. -/
def compileAlts (keywords : List String) : List (List Char) :=
  match keywords with
  | [] => [[]]
  | ks => ks.map String.data

/-- `keyword_pattern.search(text)` for the pattern compiled from `keywords`
(line 61-64 of `file_search.py`). -/
def keywordPatternSearch (keywords : List String) (text : String) : Bool :=
  matcherMatches (compileAlts keywords) text.data

/-- The spec's notion: keyword `k` occurs in `text` case-insensitively as a
whole word, word-boundary anchored on both sides. -/
def occursWholeWord (k : String) (text : String) : Prop :=
  ∃ i, i ≤ text.data.length ∧ wordAt k.data text.data i = true

/-! ## Column addressing (`_number_to_excel_column`) -/

/-- Fuel-driven body of `_number_to_excel_column`: each loop iteration does
`n -= 1; result = chr(65 + n % 26) + result; n //= 26`. -/
def natToColGo : Nat → Nat → List Char
  | _, 0 => []
  | 0, _ + 1 => []
  | fuel + 1, n + 1 => natToColGo fuel (n / 26) ++ [Char.ofNat (65 + n % 26)]

/-- `_number_to_excel_column(n)`: 1-based column number to Excel letters. -/
def numberToExcelColumn (n : Nat) : List Char := natToColGo n n

/-- Value of a letter string read as a bijective base-26 numeral
(`A`=1 … `Z`=26); the inverse reading of `numberToExcelColumn`. -/
def colVal (l : List Char) : Nat := l.foldl (fun acc c => acc * 26 + (c.toNat - 64)) 0

/-- Fuel-driven decimal rendering of a positive natural. -/
def natDigitsGo : Nat → Nat → List Char
  | _, 0 => []
  | 0, _ + 1 => []
  | fuel + 1, n + 1 => natDigitsGo fuel ((n + 1) / 10) ++ [Char.ofNat (48 + (n + 1) % 10)]

/-- Decimal rendering of a natural number, as Python's `f"{n}"`. -/
def natDigits (n : Nat) : List Char :=
  if n = 0 then [Char.ofNat 48] else natDigitsGo n n

/-- Value of a digit string read in base 10. -/
def digitsVal (l : List Char) : Nat := l.foldl (fun acc c => acc * 10 + (c.toNat - 48)) 0

/-- The cell reference `f"{col_letter}{row_idx}"` (lines 111-112). -/
def cellRefL (row col : Nat) : List Char := numberToExcelColumn col ++ natDigits row

/-- The cell reference as a string. -/
def cellRefStr (row col : Nat) : String := String.mk (cellRefL row col)

/-- `c` is an upper-case letter `A`-`Z`. -/
def isUpperAZ (c : Char) : Bool := decide (65 ≤ c.toNat) && decide (c.toNat ≤ 90)

/-- `c` is a decimal digit. -/
def isDigitCh (c : Char) : Bool := decide (48 ≤ c.toNat) && decide (c.toNat ≤ 57)

/-- Modelled from the spec: decoding a cell reference back into
`(row, column)` — the letter prefix read as bijective base-26, the digit
suffix read as a decimal row number.  The repository never decodes cell
references; this is the spec's inverse reading used to state the
round-trip property. -/
def decodeCellRef (s : String) : Option (Nat × Nat) :=
  let letters := s.data.takeWhile isUpperAZ
  let rest := s.data.dropWhile isUpperAZ
  if (!letters.isEmpty) && (!rest.isEmpty) && rest.all isDigitCh then
    some (digitsVal rest, colVal letters)
  else
    none

/-! ## Document model -/

/-- One PDF page: `page.extract_text()` either returns text (possibly `None`
or empty, both falsy) or raises. -/
inductive PdfPage where
  | ok (text : Option String)
  | fail (msg : String)
deriving DecidableEq, Repr

/-- A parsed DOCX: paragraph texts and tables (table → rows → cell texts). -/
structure DocxFile where
  paragraphs : List String
  tables : List (List (List String))
deriving DecidableEq, Repr

/-- A worksheet: name plus a dense grid of cell values, `none` for `None`;
the cell at 0-based grid position `(r, c)` has coordinates `(r+1, c+1)`. -/
structure Sheet where
  name : String
  rows : List (List (Option String))
deriving DecidableEq, Repr

deriving instance DecidableEq for Except

/-- What the format readers see when opening a file; `Except.error` models
the reader raising on a corrupt or mismatched file. -/
inductive FileContent where
  | pdfContent (r : Except String (List PdfPage))
  | docxContent (r : Except String DocxFile)
  | xlsxContent (r : Except String (List Sheet))
  | xlsContent (r : Except String (List Sheet))
deriving DecidableEq, Repr

/-- A file on disk: its basename and its content. -/
structure File where
  name : String
  content : FileContent
deriving DecidableEq, Repr

/-- One element of the heterogeneous `found_info` list. -/
inductive FoundItem where
  | page (n : Nat)
  | documentContent
  | excelCell (fileType : String) (sheet : String) (cell : String) (row : Nat) (col : Nat)
deriving DecidableEq, Repr

/-- Sheet name of an excel-cell item. -/
def itemSheet : FoundItem → String
  | .excelCell _ s _ _ _ => s
  | _ => ""

/-- Cell reference of an excel-cell item. -/
def itemCell : FoundItem → String
  | .excelCell _ _ c _ _ => c
  | _ => ""

/-- Row of an excel-cell item. -/
def itemRow : FoundItem → Nat
  | .excelCell _ _ _ r _ => r
  | _ => 0

/-- Column of an excel-cell item. -/
def itemCol : FoundItem → Nat
  | .excelCell _ _ _ _ c => c
  | _ => 0

/-! ## Log messages (the `f"..."` strings of the source) -/

/-- A single-quote character, used by the source's f-strings around names. -/
def quoteChar : Char := Char.ofNat 39

/-- A string wrapped in single quotes. -/
def quoted (s : String) : String := String.mk (quoteChar :: (s.data ++ [quoteChar]))

/-- `f"Error processing PDF '{filename}': {e}"`. -/
def pdfErrMsg (filename e : String) : String :=
  "Error processing PDF " ++ quoted filename ++ ": " ++ e

/-- `f"Error processing DOCX '{filename}': {e}"`. -/
def docxErrMsg (filename e : String) : String :=
  "Error processing DOCX " ++ quoted filename ++ ": " ++ e

/-- `f"Error processing Excel (.xlsx) file '{filename}': {e}"`. -/
def xlsxErrMsg (filename e : String) : String :=
  "Error processing Excel (.xlsx) file " ++ quoted filename ++ ": " ++ e

/-- `f"Error processing Excel (.xls) file '{filename}': {e}"`. -/
def xlsErrMsg (filename e : String) : String :=
  "Error processing Excel (.xls) file " ++ quoted filename ++ ": " ++ e

/-- `f"Processing '{filename}' ({i}/{total_files})..."`. -/
def processingMsg (filename : String) (i total : Nat) : String :=
  "Processing " ++ quoted filename ++ " (" ++ String.mk (natDigits i) ++ "/" ++
    String.mk (natDigits total) ++ ")..."

/-- `"No keywords provided for search."`. -/
def noKeywordsMsg : String := "No keywords provided for search."

/-- `f"Error: Folder '{folder_path}' not found."`. -/
def folderNotFoundMsg (p : String) : String :=
  "Error: Folder " ++ quoted p ++ " not found."

/-- `f"No supported documents (PDF, DOCX, Excel) found in '{folder_path}'."`. -/
def noDocsMsg (p : String) : String :=
  "No supported documents (PDF, DOCX, Excel) found in " ++ quoted p ++ "."

/-! ## Extension dispatch -/

/-- `l` ends with `suffix` (Python's `str.endswith`). -/
def endsWithL (l suffix : List Char) : Bool :=
  decide (suffix.length ≤ l.length) && (l.drop (l.length - suffix.length) == suffix)

/-- `f.lower().endswith(SUPPORTED_EXTENSIONS)` (line 180). -/
def isSupportedName (name : String) : Bool :=
  let low := lowerL name.data
  endsWithL low ".pdf".data || endsWithL low ".docx".data ||
    endsWithL low ".xlsx".data || endsWithL low ".xls".data

/-! ## Per-format scanning -/

/-- `text` is truthy: not `None` and not the empty string. -/
def pageTruthy : Option String → Bool
  | none => false
  | some s => !s.isEmpty

/-- `if text and keyword_pattern.search(text)` (line 74). -/
def pageHit (alts : List (List Char)) (t : Option String) : Bool :=
  match t with
  | none => false
  | some s => (!s.isEmpty) && matcherMatches alts s.data

/-- The PDF page loop (lines 72-75): pages are enumerated from 1; a raising
`extract_text` aborts the loop, keeping the matches already accumulated. -/
def pdfLoop (alts : List (List Char)) : List PdfPage → Nat → List Nat × Option String
  | [], _ => ([], none)
  | .fail e :: _, _ => ([], some e)
  | .ok t :: rest, i =>
    let r := pdfLoop alts rest (i + 1)
    ((if pageHit alts t then [i] else []) ++ r.1, r.2)

/-- Matching page numbers of a list of successfully extracted page texts,
enumerated from `i`. -/
def pdfIdx (alts : List (List Char)) : List (Option String) → Nat → List Nat
  | [], _ => []
  | t :: rest, i => (if pageHit alts t then [i] else []) ++ pdfIdx alts rest (i + 1)

/-- `"\n".join` of all paragraph texts followed by all table cell texts in
row-major order (lines 82-89). -/
def docxFullText (d : DocxFile) : String :=
  String.intercalate "\n" (d.paragraphs ++ d.tables.flatMap fun t => t.flatMap fun row => row)

/-- Following the spec's words: the plain concatenation of every paragraph's
text followed by every table cell's text in row-major order, with no
separator.  Kept distinct from `docxFullText` (the source joins with a
newline) to compare the two. -/
def specCombinedText (d : DocxFile) : String :=
  String.join (d.paragraphs ++ d.tables.flatMap fun t => t.flatMap fun row => row)

/-- The DOCX branch (lines 79-91): one search over the joined text. -/
def scanDocx (alts : List (List Char)) (d : DocxFile) : List FoundItem :=
  if matcherMatches alts (docxFullText d).data then [.documentContent] else []

/-- The XLSX inner cell loop (lines 104-120): cells of one row, columns
enumerated from `c`; a non-`None` cell whose text matches appends one
`excel_cell` record with the recomputed reference. -/
def scanCells (alts : List (List Char)) (sheetName fileType : String) (r : Nat) :
    Nat → List (Option String) → List FoundItem
  | _, [] => []
  | c, v :: rest =>
    (match v with
     | none => []
     | some s =>
       if matcherMatches alts s.data then
         [.excelCell fileType sheetName (cellRefStr r c) r c]
       else []) ++ scanCells alts sheetName fileType r (c + 1) rest

/-- The XLSX row loop: rows enumerated from `r`. -/
def scanRows (alts : List (List Char)) (sheetName fileType : String) :
    Nat → List (List (Option String)) → List FoundItem
  | _, [] => []
  | r, row :: rest =>
    scanCells alts sheetName fileType r 1 row ++ scanRows alts sheetName fileType (r + 1) rest

/-- The XLSX sheet loop (lines 102-120). -/
def scanSheets (alts : List (List Char)) : List Sheet → List FoundItem
  | [] => []
  | sh :: rest => scanRows alts sh.name ".xlsx" 1 sh.rows ++ scanSheets alts rest

/-- The XLS inner cell loop (lines 134-149): additionally skips cells whose
text strips to empty. -/
def scanCellsXls (alts : List (List Char)) (sheetName : String) (r : Nat) :
    Nat → List (Option String) → List FoundItem
  | _, [] => []
  | c, v :: rest =>
    (match v with
     | none => []
     | some s =>
       if (!s.trim.isEmpty) && matcherMatches alts s.data then
         [.excelCell ".xls" sheetName (cellRefStr r c) r c]
       else []) ++ scanCellsXls alts sheetName r (c + 1) rest

/-- The XLS row loop. -/
def scanRowsXls (alts : List (List Char)) (sheetName : String) :
    Nat → List (List (Option String)) → List FoundItem
  | _, [] => []
  | r, row :: rest =>
    scanCellsXls alts sheetName r 1 row ++ scanRowsXls alts sheetName (r + 1) rest

/-- The XLS sheet loop (lines 131-149). -/
def scanSheetsXls (alts : List (List Char)) : List Sheet → List FoundItem
  | [] => []
  | sh :: rest => scanRowsXls alts sh.name 1 sh.rows ++ scanSheetsXls alts rest

/-! ## Single-document scan (`search_document_for_keywords`) -/

/-- The body of `search_document_for_keywords` after compiling the pattern:
dispatch on the lower-cased filename's extension, scan, and collect the
found items together with the error log events emitted through
`log_callback`.  A file whose content does not parse as its extension's
format corresponds to the reader raising. -/
def scanWith (alts : List (List Char)) (f : File) : List FoundItem × List String :=
  let filename := f.name
  let low := lowerL filename.data
  if endsWithL low ".pdf".data then
    match f.content with
    | .pdfContent (.ok pages) =>
      let r := pdfLoop alts pages 1
      ((r.1).map FoundItem.page,
        match r.2 with
        | some e => [pdfErrMsg filename e]
        | none => [])
    | .pdfContent (.error e) => ([], [pdfErrMsg filename e])
    | _ => ([], [pdfErrMsg filename "invalid file"])
  else if endsWithL low ".docx".data then
    match f.content with
    | .docxContent (.ok d) => (scanDocx alts d, [])
    | .docxContent (.error e) => ([], [docxErrMsg filename e])
    | _ => ([], [docxErrMsg filename "invalid file"])
  else if endsWithL low ".xlsx".data then
    match f.content with
    | .xlsxContent (.ok sheets) => (scanSheets alts sheets, [])
    | .xlsxContent (.error e) => ([], [xlsxErrMsg filename e])
    | _ => ([], [xlsxErrMsg filename "invalid file"])
  else if endsWithL low ".xls".data then
    match f.content with
    | .xlsContent (.ok sheets) => (scanSheetsXls alts sheets, [])
    | .xlsContent (.error e) => ([], [xlsErrMsg filename e])
    | _ => ([], [xlsErrMsg filename "invalid file"])
  else ([], [])

/-- Result of one `search_document_for_keywords` call: the returned
`found_info`, the log events it emitted, and how many times it compiled
the keyword pattern (line 61 runs exactly once per call). -/
structure ScanOut where
  found : List FoundItem
  logs : List String
  compiles : Nat
deriving DecidableEq, Repr

/-- `search_document_for_keywords(filepath, keywords, log_callback)`. -/
def searchDocumentForKeywords (keywords : List String) (f : File) : ScanOut :=
  let alts := compileAlts keywords
  let r := scanWith alts f
  ⟨r.1, r.2, 1⟩

/-! ## Batch runner (`search_files_in_folder_gui`) -/

/-- A directory entry: a file object plus whether `os.path.isfile` holds. -/
structure Entry where
  file : File
  isFile : Bool
deriving DecidableEq, Repr

/-- Result of one batch run: the returned dictionary (as an insertion-ordered
association list), the log events, the progress events, and the total number
of keyword-pattern compilations performed. -/
structure BatchOut where
  results : List (String × List FoundItem)
  logs : List String
  progress : List (Nat × Nat)
  compiles : Nat
deriving DecidableEq, Repr

/-- The eligible files of a directory listing (lines 178-181). -/
def eligibleFiles (entries : List Entry) : List File :=
  (entries.filter fun e => isSupportedName e.file.name && e.isFile).map Entry.file

/-- The per-file loop (lines 188-195), with `i` the 1-based position. -/
def batchLoop (keywords : List String) : List File → Nat → Nat → BatchOut
  | [], _, _ => ⟨[], [], [], 0⟩
  | f :: rest, i, total =>
    let s := searchDocumentForKeywords keywords f
    let t := batchLoop keywords rest (i + 1) total
    ⟨(if s.found = [] then [] else [(f.name, s.found)]) ++ t.results,
      (processingMsg f.name i total :: s.logs) ++ t.logs,
      (i, total) :: t.progress,
      s.compiles + t.compiles⟩

/-- `search_files_in_folder_gui(folder_path, keywords, log, progress)`.
`folder = none` models a path that is not a directory. -/
def searchFilesInFolderGui (folderPath : String) (folder : Option (List Entry))
    (keywords : List String) : BatchOut :=
  if keywords = [] then ⟨[], [noKeywordsMsg], [], 0⟩
  else
    match folder with
    | none => ⟨[], [folderNotFoundMsg folderPath], [], 0⟩
    | some entries =>
      let files := eligibleFiles entries
      if files = [] then ⟨[], [noDocsMsg folderPath], [], 0⟩
      else batchLoop keywords files 1 files.length

/-- Following the spec's words: a batch runner that compiles the keyword
matcher exactly once per run and reuses it for every file.  Used to compare
the source's per-file compilation against the spec's once-per-run scheme. -/
def batchLoopShared (alts : List (List Char)) : List File → Nat → Nat → BatchOut
  | [], _, _ => ⟨[], [], [], 0⟩
  | f :: rest, i, total =>
    let s := scanWith alts f
    let t := batchLoopShared alts rest (i + 1) total
    ⟨(if s.1 = [] then [] else [(f.name, s.1)]) ++ t.results,
      (processingMsg f.name i total :: s.2) ++ t.logs,
      (i, total) :: t.progress,
      t.compiles⟩

/-- Following the spec's words: the once-per-run-compilation batch runner. -/
def searchFilesSharedMatcher (folderPath : String) (folder : Option (List Entry))
    (keywords : List String) : BatchOut :=
  if keywords = [] then ⟨[], [noKeywordsMsg], [], 0⟩
  else
    match folder with
    | none => ⟨[], [folderNotFoundMsg folderPath], [], 0⟩
    | some entries =>
      let files := eligibleFiles entries
      if files = [] then ⟨[], [noDocsMsg folderPath], [], 0⟩
      else
        let alts := compileAlts keywords
        let t := batchLoopShared alts files 1 files.length
        ⟨t.results, t.logs, t.progress, 1⟩

/-- The batch result as a fold over the eligible files: each file contributes
its own scan's findings, independently of every other file. -/
def resultsOf (keywords : List String) (files : List File) : List (String × List FoundItem) :=
  files.foldr
    (fun f acc =>
      (if (searchDocumentForKeywords keywords f).found = [] then []
       else [(f.name, (searchDocumentForKeywords keywords f).found)]) ++ acc)
    []

/-! ## Lemmas: column addressing round-trip -/

theorem toNat_ofNat_add65 (d : Nat) (hd : d < 26) : (Char.ofNat (65 + d)).toNat = 65 + d := by
  interval_cases d <;> rfl

theorem toNat_ofNat_add48 (d : Nat) (hd : d < 10) : (Char.ofNat (48 + d)).toNat = 48 + d := by
  interval_cases d <;> rfl

theorem isUpperAZ_ofNat_add65 (d : Nat) (hd : d < 26) : isUpperAZ (Char.ofNat (65 + d)) = true := by
  simp only [isUpperAZ, toNat_ofNat_add65 d hd, Bool.and_eq_true, decide_eq_true_eq]
  omega

theorem isDigitCh_ofNat_add48 (d : Nat) (hd : d < 10) : isDigitCh (Char.ofNat (48 + d)) = true := by
  simp only [isDigitCh, toNat_ofNat_add48 d hd, Bool.and_eq_true, decide_eq_true_eq]
  omega

theorem isUpperAZ_false_of_digit (c : Char) (h : isDigitCh c = true) : isUpperAZ c = false := by
  simp only [isDigitCh, Bool.and_eq_true, decide_eq_true_eq] at h
  simp only [isUpperAZ, Bool.and_eq_false_iff, decide_eq_false_iff_not]
  omega

theorem colVal_append_singleton (l : List Char) (c : Char) :
    colVal (l ++ [c]) = colVal l * 26 + (c.toNat - 64) := by
  simp [colVal, List.foldl_append]

theorem digitsVal_append_singleton (l : List Char) (c : Char) :
    digitsVal (l ++ [c]) = digitsVal l * 10 + (c.toNat - 48) := by
  simp [digitsVal, List.foldl_append]

theorem natToColGo_val : ∀ fuel n : Nat, n ≤ fuel → colVal (natToColGo fuel n) = n := by
  intro fuel
  induction fuel with
  | zero =>
    intro n hn
    interval_cases n
    rfl
  | succ f ih =>
    intro n hn
    match n with
    | 0 => rfl
    | m + 1 =>
      have hm : m / 26 ≤ f := le_trans (Nat.div_le_self m 26) (Nat.le_of_succ_le_succ hn)
      simp only [natToColGo, colVal_append_singleton, ih (m / 26) hm,
        toNat_ofNat_add65 (m % 26) (Nat.mod_lt _ (by norm_num))]
      have := Nat.div_add_mod m 26
      omega

theorem natToColGo_upper : ∀ fuel n : Nat, ∀ c ∈ natToColGo fuel n, isUpperAZ c = true := by
  intro fuel
  induction fuel with
  | zero =>
    intro n c hc
    match n with
    | 0 => simp [natToColGo] at hc
    | m + 1 => simp [natToColGo] at hc
  | succ f ih =>
    intro n c hc
    match n with
    | 0 => simp [natToColGo] at hc
    | m + 1 =>
      simp only [natToColGo, List.mem_append, List.mem_singleton] at hc
      rcases hc with hc | hc
      · exact ih _ c hc
      · rw [hc]
        exact isUpperAZ_ofNat_add65 (m % 26) (Nat.mod_lt _ (by norm_num))

theorem natToColGo_ne_nil (fuel n : Nat) (h1 : 1 ≤ n) (h2 : n ≤ fuel) :
    natToColGo fuel n ≠ [] := by
  match fuel, n with
  | 0, n => omega
  | f + 1, 0 => omega
  | f + 1, m + 1 => simp [natToColGo]

theorem numberToExcelColumn_val (n : Nat) : colVal (numberToExcelColumn n) = n :=
  natToColGo_val n n (Nat.le_refl n)

theorem numberToExcelColumn_upper (n : Nat) :
    ∀ c ∈ numberToExcelColumn n, isUpperAZ c = true :=
  natToColGo_upper n n

theorem numberToExcelColumn_ne_nil (n : Nat) (h : 1 ≤ n) : numberToExcelColumn n ≠ [] :=
  natToColGo_ne_nil n n h (Nat.le_refl n)

theorem natDigitsGo_val : ∀ fuel n : Nat, n ≤ fuel → digitsVal (natDigitsGo fuel n) = n := by
  intro fuel
  induction fuel with
  | zero =>
    intro n hn
    interval_cases n
    rfl
  | succ f ih =>
    intro n hn
    match n with
    | 0 => rfl
    | m + 1 =>
      have hm : (m + 1) / 10 ≤ f := by
        have := Nat.div_lt_self (Nat.succ_pos m) (by norm_num : 1 < 10)
        omega
      simp only [natDigitsGo, digitsVal_append_singleton, ih ((m + 1) / 10) hm,
        toNat_ofNat_add48 ((m + 1) % 10) (Nat.mod_lt _ (by norm_num))]
      have := Nat.div_add_mod (m + 1) 10
      omega

theorem natDigitsGo_digit : ∀ fuel n : Nat, ∀ c ∈ natDigitsGo fuel n, isDigitCh c = true := by
  intro fuel
  induction fuel with
  | zero =>
    intro n c hc
    match n with
    | 0 => simp [natDigitsGo] at hc
    | m + 1 => simp [natDigitsGo] at hc
  | succ f ih =>
    intro n c hc
    match n with
    | 0 => simp [natDigitsGo] at hc
    | m + 1 =>
      simp only [natDigitsGo, List.mem_append, List.mem_singleton] at hc
      rcases hc with hc | hc
      · exact ih _ c hc
      · rw [hc]
        exact isDigitCh_ofNat_add48 ((m + 1) % 10) (Nat.mod_lt _ (by norm_num))

theorem natDigits_val (n : Nat) : digitsVal (natDigits n) = n := by
  by_cases h : n = 0
  · subst h; rfl
  · simp only [natDigits, if_neg h]
    exact natDigitsGo_val n n (Nat.le_refl n)

theorem natDigits_digit (n : Nat) : ∀ c ∈ natDigits n, isDigitCh c = true := by
  by_cases h : n = 0
  · subst h
    intro c hc
    simp [natDigits] at hc
    rw [hc]
    decide
  · simp only [natDigits, if_neg h]
    exact natDigitsGo_digit n n

theorem natDigits_ne_nil (n : Nat) : natDigits n ≠ [] := by
  by_cases h : n = 0
  · subst h; simp [natDigits]
  · simp only [natDigits, if_neg h]
    match hn : n with
    | 0 => omega
    | m + 1 => simp [natDigitsGo]

theorem takeWhile_append_all {α} (p : α → Bool) (l₁ l₂ : List α) (h : ∀ a ∈ l₁, p a = true) :
    (l₁ ++ l₂).takeWhile p = l₁ ++ l₂.takeWhile p := by
  induction l₁ with
  | nil => simp
  | cons a t ih =>
    simp only [List.cons_append, List.takeWhile_cons_of_pos (h a (List.mem_cons_self a t)),
      List.cons.injEq, true_and]
    exact ih fun b hb => h b (List.mem_cons_of_mem a hb)

theorem dropWhile_append_all {α} (p : α → Bool) (l₁ l₂ : List α) (h : ∀ a ∈ l₁, p a = true) :
    (l₁ ++ l₂).dropWhile p = l₂.dropWhile p := by
  induction l₁ with
  | nil => simp
  | cons a t ih =>
    rw [List.cons_append,
      List.dropWhile_cons_of_pos (h a (List.mem_cons_self a t))]
    exact ih fun b hb => h b (List.mem_cons_of_mem a hb)

theorem takeWhile_eq_nil_of_neg {α} (p : α → Bool) (l : List α) (h : ∀ a ∈ l, p a = false) :
    l.takeWhile p = [] := by
  cases l with
  | nil => rfl
  | cons a t =>
    exact List.takeWhile_cons_of_neg (by simp [h a (List.mem_cons_self a t)])

theorem dropWhile_eq_self_of_neg {α} (p : α → Bool) (l : List α) (h : ∀ a ∈ l, p a = false) :
    l.dropWhile p = l := by
  cases l with
  | nil => rfl
  | cons a t =>
    exact List.dropWhile_cons_of_neg (by simp [h a (List.mem_cons_self a t)])

theorem decode_cellRef (r c : Nat) (hr : 1 ≤ r) (hc : 1 ≤ c) :
    decodeCellRef (cellRefStr r c) = some (r, c) := by
  have hdig : ∀ a ∈ natDigits r, isUpperAZ a = false := fun a ha =>
    isUpperAZ_false_of_digit a (natDigits_digit r a ha)
  have hup := numberToExcelColumn_upper c
  have hdata : (cellRefStr r c).data = numberToExcelColumn c ++ natDigits r := rfl
  simp only [decodeCellRef, hdata]
  rw [takeWhile_append_all _ _ _ hup, takeWhile_eq_nil_of_neg _ _ hdig,
    dropWhile_append_all _ _ _ hup, dropWhile_eq_self_of_neg _ _ hdig, List.append_nil]
  have h1 : (numberToExcelColumn c).isEmpty = false := by
    rcases hl : numberToExcelColumn c with _ | _
    · exact absurd hl (numberToExcelColumn_ne_nil c hc)
    · rfl
  have h2 : (natDigits r).isEmpty = false := by
    rcases hl : natDigits r with _ | _
    · exact absurd hl (natDigits_ne_nil r)
    · rfl
  have h3 : (natDigits r).all isDigitCh = true := List.all_eq_true.mpr (natDigits_digit r)
  simp only [h1, h2, h3, Bool.not_false, Bool.and_self, if_pos rfl, Bool.and_true,
    Bool.true_and, if_true]
  rw [natDigits_val, numberToExcelColumn_val]

theorem cellRefStr_injOn (r1 c1 r2 c2 : Nat) (hr1 : 1 ≤ r1) (hc1 : 1 ≤ c1)
    (hr2 : 1 ≤ r2) (hc2 : 1 ≤ c2) (h : cellRefStr r1 c1 = cellRefStr r2 c2) :
    r1 = r2 ∧ c1 = c2 := by
  have h1 := decode_cellRef r1 c1 hr1 hc1
  have h2 := decode_cellRef r2 c2 hr2 hc2
  rw [h, h2] at h1
  simp only [Option.some.injEq, Prod.mk.injEq] at h1
  exact ⟨h1.1.symm, h1.2.symm⟩

/-! ## Lemmas: extension dispatch -/

theorem endsWithL_iff (l s : List Char) :
    endsWithL l s = true ↔ s.length ≤ l.length ∧ l.drop (l.length - s.length) = s := by
  simp [endsWithL]

theorem endsWithL_of_endsWithL {l a b : List Char} (ha : endsWithL l a = true)
    (hb : endsWithL l b = true) (hab : a.length ≤ b.length) : endsWithL b a = true := by
  rw [endsWithL_iff] at ha hb ⊢
  obtain ⟨ha1, ha2⟩ := ha
  obtain ⟨hb1, hb2⟩ := hb
  refine ⟨hab, ?_⟩
  have hblen : b.length - a.length + (l.length - b.length) = l.length - a.length := by omega
  calc b.drop (b.length - a.length)
      = (l.drop (l.length - b.length)).drop (b.length - a.length) := by rw [hb2]
    _ = l.drop (l.length - b.length + (b.length - a.length)) := by
        rw [List.drop_drop]
    _ = l.drop (l.length - a.length) := by rw [Nat.add_comm, hblen]
    _ = a := ha2

theorem endsWithL_false_of {l a b : List Char} (hb : endsWithL l b = true)
    (hlen : a.length ≤ b.length) (hnot : endsWithL b a = false) : endsWithL l a = false := by
  cases h : endsWithL l a with
  | false => rfl
  | true => rw [endsWithL_of_endsWithL h hb hlen] at hnot; exact hnot

theorem not_pdf_of_docx {l : List Char} (h : endsWithL l ".docx".data = true) :
    endsWithL l ".pdf".data = false :=
  endsWithL_false_of h (by decide) (by decide)

theorem not_pdf_of_xlsx {l : List Char} (h : endsWithL l ".xlsx".data = true) :
    endsWithL l ".pdf".data = false :=
  endsWithL_false_of h (by decide) (by decide)

theorem not_docx_of_xlsx {l : List Char} (h : endsWithL l ".xlsx".data = true) :
    endsWithL l ".docx".data = false :=
  endsWithL_false_of h (by decide) (by decide)

/-! ## Lemmas: the batch loop -/

theorem batchLoop_progress (keywords : List String) :
    ∀ (files : List File) (i total : Nat),
      (batchLoop keywords files i total).progress
        = (List.range files.length).map fun j => (i + j, total) := by
  intro files
  induction files with
  | nil => intro i total; simp [batchLoop]
  | cons f rest ih =>
    intro i total
    have harith : (fun j => (i + 1 + j, total)) = fun j => (i + (j + 1), total) := by
      funext j
      simp only [Prod.mk.injEq, and_true]
      omega
    simp only [batchLoop, List.length_cons, List.range_succ_eq_map, List.map_cons,
      List.map_map, ih, Nat.add_zero, harith]
    rfl

theorem batchLoop_results (keywords : List String) :
    ∀ (files : List File) (i total : Nat),
      (batchLoop keywords files i total).results = resultsOf keywords files := by
  intro files
  induction files with
  | nil => intro i total; rfl
  | cons f rest ih =>
    intro i total
    simp only [batchLoop, resultsOf, List.foldr_cons, ih]

theorem batchLoop_logs_mem (keywords : List String) :
    ∀ (files : List File) (i total : Nat) (f : File), f ∈ files →
      ∀ l ∈ (searchDocumentForKeywords keywords f).logs,
        l ∈ (batchLoop keywords files i total).logs := by
  intro files
  induction files with
  | nil => intro i total f hf; exact absurd hf (List.not_mem_nil f)
  | cons g rest ih =>
    intro i total f hf l hl
    simp only [batchLoop, List.cons_append, List.mem_cons, List.mem_append]
    rcases List.mem_cons.mp hf with hf | hf
    · subst hf
      exact Or.inr (Or.inl hl)
    · exact Or.inr (Or.inr (ih (i + 1) total f hf l hl))

theorem batchLoop_compiles (keywords : List String) :
    ∀ (files : List File) (i total : Nat),
      (batchLoop keywords files i total).compiles = files.length := by
  intro files
  induction files with
  | nil => intro i total; rfl
  | cons f rest ih =>
    intro i total
    simp only [batchLoop, List.length_cons, ih]
    have hone : (searchDocumentForKeywords keywords f).compiles = 1 := rfl
    omega

theorem batchLoop_shared_eq (keywords : List String) :
    ∀ (files : List File) (i total : Nat),
      (batchLoop keywords files i total).results
          = (batchLoopShared (compileAlts keywords) files i total).results
        ∧ (batchLoop keywords files i total).logs
          = (batchLoopShared (compileAlts keywords) files i total).logs
        ∧ (batchLoop keywords files i total).progress
          = (batchLoopShared (compileAlts keywords) files i total).progress := by
  intro files
  induction files with
  | nil => intro i total; exact ⟨rfl, rfl, rfl⟩
  | cons f rest ih =>
    intro i total
    obtain ⟨h1, h2, h3⟩ := ih (i + 1) total
    refine ⟨?_, ?_, ?_⟩ <;>
      simp only [batchLoop, batchLoopShared, searchDocumentForKeywords, h1, h2, h3]

/-! ## Lemmas: the PDF page loop -/

theorem pdfLoop_ok (alts : List (List Char)) :
    ∀ (texts : List (Option String)) (i : Nat),
      pdfLoop alts (texts.map PdfPage.ok) i = (pdfIdx alts texts i, none) := by
  intro texts
  induction texts with
  | nil => intro i; rfl
  | cons t rest ih =>
    intro i
    simp only [List.map_cons, pdfLoop, pdfIdx, ih]

theorem pdfLoop_fail (alts : List (List Char)) :
    ∀ (texts : List (Option String)) (e : String) (rest : List PdfPage) (i : Nat),
      pdfLoop alts (texts.map PdfPage.ok ++ PdfPage.fail e :: rest) i
        = (pdfIdx alts texts i, some e) := by
  intro texts
  induction texts with
  | nil => intro e rest i; rfl
  | cons t ts ih =>
    intro e rest i
    simp only [List.map_cons, List.cons_append, pdfLoop, pdfIdx, List.append_eq, ih]

theorem pdfIdx_nil_of_false (alts : List (List Char)) :
    ∀ (texts : List (Option String)), (∀ t ∈ texts, pageHit alts t = false) →
      ∀ i, pdfIdx alts texts i = [] := by
  intro texts
  induction texts with
  | nil => intro _ i; rfl
  | cons t rest ih =>
    intro h i
    simp only [pdfIdx, h t (List.mem_cons_self t rest), if_neg Bool.false_ne_true,
      List.nil_append]
    exact ih (fun u hu => h u (List.mem_cons_of_mem t hu)) (i + 1)

theorem pageHit_false_of_not_truthy (alts : List (List Char)) (t : Option String)
    (h : pageTruthy t = false) : pageHit alts t = false := by
  cases t with
  | none => rfl
  | some s =>
    simp only [pageTruthy] at h
    simp only [pageHit, h, Bool.false_and]

/-! ## Lemmas: the XLSX cell scan -/

theorem scanCells_mem (alts : List (List Char)) (nm ft : String) (r : Nat) :
    ∀ (cells : List (Option String)) (c : Nat) (b : FoundItem),
      b ∈ scanCells alts nm ft r c cells →
        itemSheet b = nm ∧ itemRow b = r ∧ c ≤ itemCol b ∧
          itemCell b = cellRefStr (itemRow b) (itemCol b) := by
  intro cells
  induction cells with
  | nil =>
    intro c b hb
    exact absurd hb (List.not_mem_nil b)
  | cons v rest ih =>
    intro c b hb
    simp only [scanCells, List.mem_append] at hb
    rcases hb with hb | hb
    · have hb' : b = FoundItem.excelCell ft nm (cellRefStr r c) r c := by
        cases v with
        | none => exact absurd hb (List.not_mem_nil b)
        | some s =>
          by_cases hm : matcherMatches alts s.data = true
          · simpa [hm] using hb
          · simp [hm] at hb
      subst hb'
      exact ⟨rfl, rfl, Nat.le_refl c, rfl⟩
    · obtain ⟨h1, h2, h3, h4⟩ := ih (c + 1) b hb
      exact ⟨h1, h2, Nat.le_of_succ_le h3, h4⟩

theorem scanCells_pairwise (alts : List (List Char)) (nm ft : String) (r : Nat) :
    ∀ (cells : List (Option String)) (c : Nat),
      (scanCells alts nm ft r c cells).Pairwise fun x y => itemCol x ≠ itemCol y := by
  intro cells
  induction cells with
  | nil => intro c; exact List.Pairwise.nil
  | cons v rest ih =>
    intro c
    simp only [scanCells]
    rw [List.pairwise_append]
    refine ⟨?_, ih (c + 1), ?_⟩
    · cases v with
      | none => exact List.Pairwise.nil
      | some s =>
        by_cases hm : matcherMatches alts s.data = true
        · simp [hm]
        · simp [hm]
    · intro a ha b hb
      have hbc := (scanCells_mem alts nm ft r rest (c + 1) b hb).2.2.1
      have hac : itemCol a = c := by
        cases v with
        | none => exact absurd ha (List.not_mem_nil a)
        | some s =>
          by_cases hm : matcherMatches alts s.data = true
          · have : a = FoundItem.excelCell ft nm (cellRefStr r c) r c := by
              simpa [hm] using ha
            rw [this]
            rfl
          · simp [hm] at ha
      omega

theorem scanRows_mem (alts : List (List Char)) (nm ft : String) :
    ∀ (rows : List (List (Option String))) (r : Nat) (b : FoundItem),
      b ∈ scanRows alts nm ft r rows →
        itemSheet b = nm ∧ r ≤ itemRow b ∧ 1 ≤ itemCol b ∧
          itemCell b = cellRefStr (itemRow b) (itemCol b) := by
  intro rows
  induction rows with
  | nil =>
    intro r b hb
    exact absurd hb (List.not_mem_nil b)
  | cons row rest ih =>
    intro r b hb
    simp only [scanRows, List.mem_append] at hb
    rcases hb with hb | hb
    · obtain ⟨h1, h2, h3, h4⟩ := scanCells_mem alts nm ft r row 1 b hb
      exact ⟨h1, Nat.le_of_eq h2.symm, h3, h4⟩
    · obtain ⟨h1, h2, h3, h4⟩ := ih (r + 1) b hb
      exact ⟨h1, Nat.le_of_succ_le h2, h3, h4⟩

theorem scanRows_pairwise (alts : List (List Char)) (nm ft : String) :
    ∀ (rows : List (List (Option String))) (r : Nat),
      (scanRows alts nm ft r rows).Pairwise
        fun x y => (itemRow x, itemCol x) ≠ (itemRow y, itemCol y) := by
  intro rows
  induction rows with
  | nil => intro r; exact List.Pairwise.nil
  | cons row rest ih =>
    intro r
    rw [scanRows, List.pairwise_append]
    refine ⟨?_, ih (r + 1), ?_⟩
    · have hp := scanCells_pairwise alts nm ft r row 1
      refine hp.imp ?_
      intro a b hab
      simp only [Ne, Prod.mk.injEq, not_and]
      intro _
      exact hab
    · intro a ha b hb
      have har : itemRow a = r := (scanCells_mem alts nm ft r row 1 a ha).2.1
      have hbr : r + 1 ≤ itemRow b := (scanRows_mem alts nm ft rest (r + 1) b hb).2.1
      simp only [Ne, Prod.mk.injEq, not_and]
      intro hrow
      omega

theorem scanSheets_mem (alts : List (List Char)) :
    ∀ (sheets : List Sheet) (b : FoundItem), b ∈ scanSheets alts sheets →
      (∃ sh ∈ sheets, itemSheet b = sh.name) ∧ 1 ≤ itemRow b ∧ 1 ≤ itemCol b ∧
        itemCell b = cellRefStr (itemRow b) (itemCol b) := by
  intro sheets
  induction sheets with
  | nil =>
    intro b hb
    exact absurd hb (List.not_mem_nil b)
  | cons sh rest ih =>
    intro b hb
    simp only [scanSheets, List.mem_append] at hb
    rcases hb with hb | hb
    · obtain ⟨h1, h2, h3, h4⟩ := scanRows_mem alts sh.name ".xlsx" sh.rows 1 b hb
      exact ⟨⟨sh, List.mem_cons_self sh rest, h1⟩, h2, h3, h4⟩
    · obtain ⟨⟨sh', hsh', h1⟩, h2, h3, h4⟩ := ih b hb
      exact ⟨⟨sh', List.mem_cons_of_mem sh hsh', h1⟩, h2, h3, h4⟩

theorem scanSheets_pairwise (alts : List (List Char)) :
    ∀ (sheets : List Sheet), (sheets.map Sheet.name).Nodup →
      (scanSheets alts sheets).Pairwise
        fun x y => (itemSheet x, itemCell x) ≠ (itemSheet y, itemCell y) := by
  intro sheets
  induction sheets with
  | nil => intro _; exact List.Pairwise.nil
  | cons sh rest ih =>
    intro hnd
    simp only [List.map_cons, List.nodup_cons, List.mem_map] at hnd
    obtain ⟨hname, hndrest⟩ := hnd
    rw [scanSheets, List.pairwise_append]
    refine ⟨?_, ih hndrest, ?_⟩
    · have hp := scanRows_pairwise alts sh.name ".xlsx" sh.rows 1
      refine hp.imp_of_mem ?_
      intro a b ha hb hab
      obtain ⟨_, har, hac, hacell⟩ := scanRows_mem alts sh.name ".xlsx" sh.rows 1 a ha
      obtain ⟨_, hbr, hbc, hbcell⟩ := scanRows_mem alts sh.name ".xlsx" sh.rows 1 b hb
      simp only [Ne, Prod.mk.injEq, not_and] at hab ⊢
      intro _ hcell
      rw [hacell, hbcell] at hcell
      obtain ⟨hre, hce⟩ := cellRefStr_injOn _ _ _ _ har hac hbr hbc hcell
      exact hab hre hce
    · intro a ha b hb
      have ha1 : itemSheet a = sh.name := (scanRows_mem alts sh.name ".xlsx" sh.rows 1 a ha).1
      obtain ⟨⟨sh', hsh', hb1⟩, _, _, _⟩ := scanSheets_mem alts rest b hb
      simp only [Ne, Prod.mk.injEq, not_and]
      intro hsheet _
      refine hname ⟨sh', hsh', ?_⟩
      rw [← hb1, ← hsheet]
      exact ha1

/-! ## Lemmas: the compiled matcher -/

theorem compileAlts_of_ne (keywords : List String) (h : keywords ≠ []) :
    compileAlts keywords = keywords.map String.data := by
  cases keywords with
  | nil => exact absurd rfl h
  | cons k ks => rfl

theorem keywordPatternSearch_iff (keywords : List String) (text : String) (h : keywords ≠ []) :
    keywordPatternSearch keywords text = true ↔ ∃ k ∈ keywords, occursWholeWord k text := by
  unfold keywordPatternSearch matcherMatches occursWholeWord
  rw [compileAlts_of_ne keywords h]
  simp only [List.any_eq_true, List.mem_range, List.mem_map, Nat.lt_succ_iff]
  constructor
  · rintro ⟨i, hi, kd, ⟨k, hk, rfl⟩, hw⟩
    exact ⟨k, hk, i, hi, hw⟩
  · rintro ⟨k, hk, i, hi, hw⟩
    exact ⟨i, hi, k.data, ⟨k, hk, rfl⟩, hw⟩

theorem searchDocument_unsupported (keywords : List String) (f : File)
    (h : isSupportedName f.name = false) :
    (searchDocumentForKeywords keywords f).found = []
      ∧ (searchDocumentForKeywords keywords f).logs = [] := by
  simp only [isSupportedName, Bool.or_eq_false_iff] at h
  obtain ⟨⟨⟨h1, h2⟩, h3⟩, h4⟩ := h
  simp [searchDocumentForKeywords, scanWith, h1, h2, h3, h4]

/-! ## Claim C1 -/

/-- C1: for every nonempty keyword set `K` and every text `T`, the compiled
matcher matches `T` iff some keyword of `K` occurs in `T` case-insensitively
as a whole word, word-boundary anchored on both sides; in particular "Cat"
matches "I have a CAT." and does not match "Category.".  (Amended from
"every keyword set": for the empty keyword list the compiled pattern is
`\b(?:)\b`, which matches any text containing a word boundary although no
keyword occurs — see the counterexample.) -/
theorem spec_c1 :
    (∀ (keywords : List String) (text : String), keywords ≠ [] →
        (keywordPatternSearch keywords text = true ↔ ∃ k ∈ keywords, occursWholeWord k text))
      ∧ keywordPatternSearch ["Cat"] "I have a CAT." = true
      ∧ keywordPatternSearch ["Cat"] "Category." = false := by
  refine ⟨?_, by decide, by decide⟩
  intro keywords text h
  exact keywordPatternSearch_iff keywords text h

/-- C1 counterexample: with the empty keyword list — permitted by the claim's
"for every keyword set K" — the compiled pattern `\b(?:)\b` matches the text
"a" even though no keyword of the empty set occurs in it, so the claimed
equivalence fails at `K = []`. -/
theorem spec_c1_cex :
    keywordPatternSearch [] "a" = true ∧ ∀ k ∈ ([] : List String), False :=
  ⟨by decide, fun k hk => absurd hk (List.not_mem_nil k)⟩

/-- C1 witness: the amended equivalence instantiated at the keyword set
`["Cat"]` and the text "I have a CAT.". -/
theorem spec_c1_witness :
    (["Cat"] : List String) ≠ [] ∧
      (keywordPatternSearch ["Cat"] "I have a CAT." = true ↔
        ∃ k ∈ ["Cat"], occursWholeWord k "I have a CAT.") :=
  ⟨by decide, spec_c1.1 ["Cat"] "I have a CAT." (by decide)⟩

/-! ## Claim C9 -/

/-- C9: Column Addressing is a bijection on positive integers up to its
inverse: for every positive row `r` and column `c`, the cell reference built
from `(r, c)` decodes back to exactly `(r, c)`; in particular column 28 maps
to "AB" and "AB" with row 3 decodes to `(3, 28)`. -/
theorem spec_c9 :
    (∀ r c : Nat, 1 ≤ r → 1 ≤ c → decodeCellRef (cellRefStr r c) = some (r, c))
      ∧ String.mk (numberToExcelColumn 28) = "AB"
      ∧ decodeCellRef "AB3" = some (3, 28) := by
  refine ⟨?_, by decide, by decide⟩
  intro r c hr hc
  exact decode_cellRef r c hr hc

/-- C9 witness: the round-trip instantiated at row 3, column 28. -/
theorem spec_c9_witness :
    1 ≤ 3 ∧ 1 ≤ 28 ∧ decodeCellRef (cellRefStr 3 28) = some (3, 28) :=
  ⟨by decide, by decide, spec_c9.1 3 28 (by decide) (by decide)⟩

/-! ## Claim C10 -/

/-- C10: for every file whose name does not end (case-insensitively) in
`.pdf`, `.docx`, `.xlsx` or `.xls`, the single-document scan returns an
empty result and emits no log event (and, being a total function, cannot
raise): an unsupported extension is a silent no-op indistinguishable at the
result level from a supported document with no matches. -/
theorem spec_c10 (keywords : List String) (f : File)
    (h : isSupportedName f.name = false) :
    (searchDocumentForKeywords keywords f).found = []
      ∧ (searchDocumentForKeywords keywords f).logs = [] :=
  searchDocument_unsupported keywords f h

/-- C10 witness: a `.txt` file is silently skipped. -/
theorem spec_c10_witness :
    isSupportedName "notes.txt" = false
      ∧ (searchDocumentForKeywords ["cat"] ⟨"notes.txt", .docxContent (.error "x")⟩).found = []
      ∧ (searchDocumentForKeywords ["cat"] ⟨"notes.txt", .docxContent (.error "x")⟩).logs = [] := by
  refine ⟨by decide, ?_⟩
  exact spec_c10 ["cat"] ⟨"notes.txt", .docxContent (.error "x")⟩ (by decide)

/-! ## Claim C8 -/

theorem searchDocument_docx (keywords : List String) (name : String)
    (d : Except String DocxFile) (h : endsWithL (lowerL name.data) ".docx".data = true) :
    searchDocumentForKeywords keywords ⟨name, .docxContent d⟩
      = ⟨match d with
         | .ok dd => scanDocx (compileAlts keywords) dd
         | .error _ => [],
         match d with
         | .ok _ => []
         | .error e => [docxErrMsg name e], 1⟩ := by
  have hpdf := not_pdf_of_docx h
  cases d with
  | ok dd => simp [searchDocumentForKeywords, scanWith, hpdf, h]
  | error e => simp [searchDocumentForKeywords, scanWith, hpdf, h]

/-- C8 (amended): for every DOCX document the scan yields at most one
`WholeDocumentMatch` — exactly one iff a keyword matches the document's
combined text — where the combined text is every paragraph's text followed
by every table cell's text in row-major order *joined with newline
separators* (the source uses `"\n".join`, not plain concatenation; see the
counterexample for why plain concatenation is refuted). -/
theorem spec_c8 (keywords : List String) (name : String) (d : DocxFile)
    (h : endsWithL (lowerL name.data) ".docx".data = true) :
    (searchDocumentForKeywords keywords ⟨name, .docxContent (.ok d)⟩).found.length ≤ 1
      ∧ ((searchDocumentForKeywords keywords ⟨name, .docxContent (.ok d)⟩).found
            = [FoundItem.documentContent]
          ↔ keywordPatternSearch keywords (docxFullText d) = true) := by
  rw [searchDocument_docx keywords name (.ok d) h]
  unfold scanDocx keywordPatternSearch
  by_cases hm : matcherMatches (compileAlts keywords) (docxFullText d).data = true
  · simp [hm]
  · simp [hm]

/-- C8 counterexample: with keyword "ab" and a DOCX whose paragraphs are
"a" and "b", the keyword matches the claim's combined text (the plain
concatenation "ab") but the scan finds nothing, because the source joins
the paragraphs with a newline ("a\nb"). -/
theorem spec_c8_cex :
    (searchDocumentForKeywords ["ab"] ⟨"t.docx", .docxContent (.ok ⟨["a", "b"], []⟩)⟩).found = []
      ∧ keywordPatternSearch ["ab"] (specCombinedText ⟨["a", "b"], []⟩) = true := by
  exact ⟨by decide, by decide⟩

/-- C8 witness: the amended statement instantiated at a DOCX whose single
paragraph is "cat". -/
theorem spec_c8_witness :
    endsWithL (lowerL "t.docx".data) ".docx".data = true
      ∧ ((searchDocumentForKeywords ["cat"] ⟨"t.docx", .docxContent (.ok ⟨["cat"], []⟩)⟩).found.length ≤ 1
        ∧ ((searchDocumentForKeywords ["cat"] ⟨"t.docx", .docxContent (.ok ⟨["cat"], []⟩)⟩).found
              = [FoundItem.documentContent]
            ↔ keywordPatternSearch ["cat"] (docxFullText ⟨["cat"], []⟩) = true)) :=
  ⟨by decide, spec_c8 ["cat"] "t.docx" ⟨["cat"], []⟩ (by decide)⟩

/-! ## Claim C4 -/

/-- C4 (amended): for the *empty* keyword list the batch runner scans no
file, emits the explanatory log event, and returns an empty batch result —
for any folder path and any folder state, since the keyword check precedes
the directory check.  A keyword list whose elements merely trim to empty
(e.g. `[" "]`) is, however, *not* treated as empty by the batch runner: the
list is truthy, so the files are scanned with the whitespace keywords (the
GUI layer, not the batch runner, is what strips such entries); see the
counterexample. -/
theorem spec_c4 (folderPath : String) (folder : Option (List Entry)) :
    searchFilesInFolderGui folderPath folder [] = ⟨[], [noKeywordsMsg], [], 0⟩ := by
  rfl

/-- C4 counterexample: the keyword list `[" "]` — all of whose elements trim
to empty — is not rejected: the eligible file *is* scanned (a progress event
fires), no "no keywords" log is emitted, and the scan even matches the
lone space between two words, so the batch result is non-empty. -/
theorem spec_c4_cex :
    (∀ k ∈ ([" "] : List String), k.data.all Char.isWhitespace = true)
      ∧ (searchFilesInFolderGui "d"
            (some [⟨⟨"a.docx", .docxContent (.ok ⟨["a b"], []⟩)⟩, true⟩]) [" "]).results
          = [("a.docx", [FoundItem.documentContent])]
      ∧ (searchFilesInFolderGui "d"
            (some [⟨⟨"a.docx", .docxContent (.ok ⟨["a b"], []⟩)⟩, true⟩]) [" "]).progress
          = [(1, 1)]
      ∧ noKeywordsMsg ∉ (searchFilesInFolderGui "d"
            (some [⟨⟨"a.docx", .docxContent (.ok ⟨["a b"], []⟩)⟩, true⟩]) [" "]).logs := by
  refine ⟨by decide, by decide, by decide, by decide⟩

/-! ## Claim C6 -/

/-- C6 (amended): the source compiles the keyword pattern inside
`search_document_for_keywords`, i.e. once per scanned file — a batch over
`n` eligible files performs `n` compilations, not one (see the
counterexample with 2 files).  Because compilation is a pure function of
the keyword list, this is observationally equivalent: the batch's results,
logs and progress events are identical to those of the spec's
compile-once-per-run scheme. -/
theorem spec_c6 :
    (∀ (keywords : List String) (folderPath : String) (entries : List Entry),
        keywords ≠ [] →
        (searchFilesInFolderGui folderPath (some entries) keywords).compiles
          = (eligibleFiles entries).length)
      ∧ (∀ (folderPath : String) (folder : Option (List Entry)) (keywords : List String),
          (searchFilesInFolderGui folderPath folder keywords).results
              = (searchFilesSharedMatcher folderPath folder keywords).results
            ∧ (searchFilesInFolderGui folderPath folder keywords).logs
              = (searchFilesSharedMatcher folderPath folder keywords).logs
            ∧ (searchFilesInFolderGui folderPath folder keywords).progress
              = (searchFilesSharedMatcher folderPath folder keywords).progress) := by
  constructor
  · intro keywords folderPath entries hk
    simp only [searchFilesInFolderGui, if_neg hk]
    by_cases hf : eligibleFiles entries = []
    · simp [hf]
    · simp only [if_neg hf]
      exact batchLoop_compiles keywords (eligibleFiles entries) 1 (eligibleFiles entries).length
  · intro folderPath folder keywords
    by_cases hk : keywords = []
    · subst hk
      exact ⟨rfl, rfl, rfl⟩
    · cases folder with
      | none => simp [searchFilesInFolderGui, searchFilesSharedMatcher, hk]
      | some entries =>
        by_cases hf : eligibleFiles entries = []
        · simp [searchFilesInFolderGui, searchFilesSharedMatcher, hk, hf]
        · have h3 := batchLoop_shared_eq keywords (eligibleFiles entries) 1
            (eligibleFiles entries).length
          simp only [searchFilesInFolderGui, searchFilesSharedMatcher, if_neg hk, if_neg hf]
          exact ⟨h3.1, h3.2.1, h3.2.2⟩

/-- C6 counterexample: a batch over a folder with 2 eligible files performs
2 pattern compilations, not the single once-per-run compilation the claim
asserts. -/
theorem spec_c6_cex :
    (searchFilesInFolderGui "d"
        (some [⟨⟨"a.docx", .docxContent (.ok ⟨["cat"], []⟩)⟩, true⟩,
               ⟨⟨"b.pdf", .pdfContent (.ok [PdfPage.ok (some "cat")])⟩, true⟩]) ["cat"]).compiles
        = 2
      ∧ (eligibleFiles [⟨⟨"a.docx", .docxContent (.ok ⟨["cat"], []⟩)⟩, true⟩,
               ⟨⟨"b.pdf", .pdfContent (.ok [PdfPage.ok (some "cat")])⟩, true⟩]).length = 2 := by
  exact ⟨by decide, by decide⟩

/-- C6 witness: the per-run compile count instantiated at a one-file folder,
together with the equivalence instantiated there. -/
theorem spec_c6_witness :
    (["cat"] : List String) ≠ []
      ∧ (searchFilesInFolderGui "w"
            (some [⟨⟨"a.docx", .docxContent (.ok ⟨["cat"], []⟩)⟩, true⟩]) ["cat"]).compiles
          = (eligibleFiles [⟨⟨"a.docx", .docxContent (.ok ⟨["cat"], []⟩)⟩, true⟩]).length :=
  ⟨by decide, spec_c6.1 ["cat"] "w" [⟨⟨"a.docx", .docxContent (.ok ⟨["cat"], []⟩)⟩, true⟩]
    (by decide)⟩

/-! ## Claim C2 -/

theorem searchDocument_pdf (keywords : List String) (name : String)
    (r : Except String (List PdfPage)) (h : endsWithL (lowerL name.data) ".pdf".data = true) :
    searchDocumentForKeywords keywords ⟨name, .pdfContent r⟩
      = match r with
        | .ok pages =>
          ⟨((pdfLoop (compileAlts keywords) pages 1).1).map FoundItem.page,
            match (pdfLoop (compileAlts keywords) pages 1).2 with
            | some e => [pdfErrMsg name e]
            | none => [], 1⟩
        | .error e => ⟨[], [pdfErrMsg name e], 1⟩ := by
  cases r with
  | ok pages => simp [searchDocumentForKeywords, scanWith, h]
  | error e => simp [searchDocumentForKeywords, scanWith, h]

/-- C2 (amended): for every file in a batch, a per-file extraction failure is
caught: the batch function is total, a log event naming the file and the
error is emitted into the batch's log stream, every file's contribution to
the batch result is exactly its own scan outcome (so the remaining files are
unaffected), and a PDF whose extraction raises mid-way contributes exactly
the matches accumulated *before* the failure — zero when the failure
precedes any match (e.g. when the file cannot be opened at all), but not
zero in general, which is the one point where the original claim fails (see
the counterexample). -/
theorem spec_c2 :
    (∀ (keywords : List String) (folderPath : String) (entries : List Entry),
        keywords ≠ [] →
        (searchFilesInFolderGui folderPath (some entries) keywords).results
          = resultsOf keywords (eligibleFiles entries))
      ∧ (∀ (keywords : List String) (folderPath : String) (entries : List Entry) (f : File),
          keywords ≠ [] → f ∈ eligibleFiles entries →
          ∀ l ∈ (searchDocumentForKeywords keywords f).logs,
            l ∈ (searchFilesInFolderGui folderPath (some entries) keywords).logs)
      ∧ (∀ (keywords : List String) (name e : String) (texts : List (Option String))
          (rest : List PdfPage),
          endsWithL (lowerL name.data) ".pdf".data = true →
          searchDocumentForKeywords keywords
              ⟨name, .pdfContent (.ok (texts.map PdfPage.ok ++ PdfPage.fail e :: rest))⟩
            = ⟨(pdfIdx (compileAlts keywords) texts 1).map FoundItem.page,
                [pdfErrMsg name e], 1⟩) := by
  refine ⟨?_, ?_, ?_⟩
  · intro keywords folderPath entries hk
    simp only [searchFilesInFolderGui, if_neg hk]
    by_cases hf : eligibleFiles entries = []
    · simp [hf, resultsOf]
    · simp only [if_neg hf]
      exact batchLoop_results keywords (eligibleFiles entries) 1 (eligibleFiles entries).length
  · intro keywords folderPath entries f hk hf l hl
    have hne : eligibleFiles entries ≠ [] := by
      intro hnil
      rw [hnil] at hf
      exact absurd hf (List.not_mem_nil f)
    simp only [searchFilesInFolderGui, if_neg hk, if_neg hne]
    exact batchLoop_logs_mem keywords (eligibleFiles entries) 1
      (eligibleFiles entries).length f hf l hl
  · intro keywords name e texts rest h
    rw [searchDocument_pdf keywords name (.ok (texts.map PdfPage.ok ++ PdfPage.fail e :: rest)) h]
    simp [pdfLoop_fail]

/-- C2 counterexample: a PDF whose first page matches and whose second
page's extraction raises contributes its page-1 match to the batch result
— not zero matches — even though the failure is caught and logged. -/
theorem spec_c2_cex :
    (searchFilesInFolderGui "d"
        (some [⟨⟨"bad.pdf",
          .pdfContent (.ok [PdfPage.ok (some "a cat"), PdfPage.fail "boom"])⟩, true⟩])
        ["cat"]).results = [("bad.pdf", [FoundItem.page 1])]
      ∧ pdfErrMsg "bad.pdf" "boom" ∈ (searchFilesInFolderGui "d"
        (some [⟨⟨"bad.pdf",
          .pdfContent (.ok [PdfPage.ok (some "a cat"), PdfPage.fail "boom"])⟩, true⟩])
        ["cat"]).logs :=
  ⟨by decide, by decide⟩

/-- C2 witness: the mid-extraction-failure clause instantiated at a
one-good-page-then-failure PDF. -/
theorem spec_c2_witness :
    endsWithL (lowerL "bad.pdf".data) ".pdf".data = true
      ∧ searchDocumentForKeywords ["cat"]
            ⟨"bad.pdf", .pdfContent (.ok (([some "a cat"] :
                List (Option String)).map PdfPage.ok ++ PdfPage.fail "boom" :: []))⟩
          = ⟨(pdfIdx (compileAlts ["cat"]) [some "a cat"] 1).map FoundItem.page,
              [pdfErrMsg "bad.pdf" "boom"], 1⟩ :=
  ⟨by decide, spec_c2.2.2 ["cat"] "bad.pdf" "boom" [some "a cat"] [] (by decide)⟩

/-! ## Claim C3 -/

/-- C3: during every batch run over a directory with `n` eligible files
(and a nonempty keyword list), exactly one progress event `(i, n)` is
emitted per file with `i` running 1, 2, …, n in order, even when some
file's extraction fails; and in the concrete 3-file scenario where file 2
is a corrupt PDF while files 1 and 3 match, the progress events are
`(1,3), (2,3), (3,3)`, the batch result holds entries exactly for files 1
and 3, and a log event reports file 2's failure. -/
theorem spec_c3 :
    (∀ (keywords : List String) (folderPath : String) (entries : List Entry),
        keywords ≠ [] →
        (searchFilesInFolderGui folderPath (some entries) keywords).progress
          = (List.range (eligibleFiles entries).length).map
              fun j => (j + 1, (eligibleFiles entries).length))
      ∧ (∀ (keywords : List String) (folderPath : String) (f1 f3 : File) (bn e : String)
          (entries : List Entry),
          keywords ≠ [] →
          isSupportedName f1.name = true →
          isSupportedName f3.name = true →
          endsWithL (lowerL bn.data) ".pdf".data = true →
          (searchDocumentForKeywords keywords f1).found ≠ [] →
          (searchDocumentForKeywords keywords f3).found ≠ [] →
          entries = [⟨f1, true⟩, ⟨⟨bn, .pdfContent (.error e)⟩, true⟩, ⟨f3, true⟩] →
          (searchFilesInFolderGui folderPath (some entries) keywords).progress
              = [(1, 3), (2, 3), (3, 3)]
            ∧ (searchFilesInFolderGui folderPath (some entries) keywords).results
              = [(f1.name, (searchDocumentForKeywords keywords f1).found),
                 (f3.name, (searchDocumentForKeywords keywords f3).found)]
            ∧ pdfErrMsg bn e
              ∈ (searchFilesInFolderGui folderPath (some entries) keywords).logs) := by
  constructor
  · intro keywords folderPath entries hk
    simp only [searchFilesInFolderGui, if_neg hk]
    by_cases hf : eligibleFiles entries = []
    · simp [hf]
    · simp only [if_neg hf]
      rw [batchLoop_progress keywords (eligibleFiles entries) 1 (eligibleFiles entries).length]
      refine List.map_congr_left ?_
      intro j _
      simp only [Prod.mk.injEq, and_true]
      omega
  · intro keywords folderPath f1 f3 bn e entries hk h1 h3 hbn hf1 hf3 hent
    subst hent
    have hsb : isSupportedName bn = true := by
      simp [isSupportedName, hbn]
    have hbad : searchDocumentForKeywords keywords ⟨bn, .pdfContent (.error e)⟩
        = ⟨[], [pdfErrMsg bn e], 1⟩ := searchDocument_pdf keywords bn (.error e) hbn
    have helig : eligibleFiles [⟨f1, true⟩, ⟨⟨bn, .pdfContent (.error e)⟩, true⟩, ⟨f3, true⟩]
        = [f1, ⟨bn, .pdfContent (.error e)⟩, f3] := by
      simp [eligibleFiles, h1, h3, hsb]
    have hnil : ([f1, ⟨bn, FileContent.pdfContent (.error e)⟩, f3] : List File) ≠ [] := by
      simp
    simp only [searchFilesInFolderGui, if_neg hk, helig, if_neg hnil, List.length_cons,
      List.length_nil, batchLoop, hbad, if_neg hf1, if_neg hf3]
    refine ⟨trivial, ?_, ?_⟩
    · simp
    · simp

/-- C3 witness: the 3-file scenario instantiated with a matching DOCX, a
corrupt PDF, and a matching PDF. -/
theorem spec_c3_witness :
    (searchDocumentForKeywords ["cat"] ⟨"a.docx", .docxContent (.ok ⟨["cat"], []⟩)⟩).found ≠ []
      ∧ (searchDocumentForKeywords ["cat"]
            ⟨"c.pdf", .pdfContent (.ok [PdfPage.ok (some "cat")])⟩).found ≠ []
      ∧ ((searchFilesInFolderGui "w"
            (some [⟨⟨"a.docx", .docxContent (.ok ⟨["cat"], []⟩)⟩, true⟩,
                   ⟨⟨"b.pdf", .pdfContent (.error "corrupt")⟩, true⟩,
                   ⟨⟨"c.pdf", .pdfContent (.ok [PdfPage.ok (some "cat")])⟩, true⟩]) ["cat"]).progress
              = [(1, 3), (2, 3), (3, 3)]
          ∧ (searchFilesInFolderGui "w"
            (some [⟨⟨"a.docx", .docxContent (.ok ⟨["cat"], []⟩)⟩, true⟩,
                   ⟨⟨"b.pdf", .pdfContent (.error "corrupt")⟩, true⟩,
                   ⟨⟨"c.pdf", .pdfContent (.ok [PdfPage.ok (some "cat")])⟩, true⟩]) ["cat"]).results
              = [("a.docx", (searchDocumentForKeywords ["cat"]
                    ⟨"a.docx", .docxContent (.ok ⟨["cat"], []⟩)⟩).found),
                 ("c.pdf", (searchDocumentForKeywords ["cat"]
                    ⟨"c.pdf", .pdfContent (.ok [PdfPage.ok (some "cat")])⟩).found)]
          ∧ pdfErrMsg "b.pdf" "corrupt" ∈ (searchFilesInFolderGui "w"
            (some [⟨⟨"a.docx", .docxContent (.ok ⟨["cat"], []⟩)⟩, true⟩,
                   ⟨⟨"b.pdf", .pdfContent (.error "corrupt")⟩, true⟩,
                   ⟨⟨"c.pdf", .pdfContent (.ok [PdfPage.ok (some "cat")])⟩, true⟩]) ["cat"]).logs) :=
  ⟨by decide, by decide,
    spec_c3.2 ["cat"] "w" ⟨"a.docx", .docxContent (.ok ⟨["cat"], []⟩)⟩
      ⟨"c.pdf", .pdfContent (.ok [PdfPage.ok (some "cat")])⟩ "b.pdf" "corrupt"
      [⟨⟨"a.docx", .docxContent (.ok ⟨["cat"], []⟩)⟩, true⟩,
       ⟨⟨"b.pdf", .pdfContent (.error "corrupt")⟩, true⟩,
       ⟨⟨"c.pdf", .pdfContent (.ok [PdfPage.ok (some "cat")])⟩, true⟩]
      (by decide) (by decide) (by decide) (by decide) (by decide) (by decide) rfl⟩

/-! ## Claim C5 -/

theorem searchDocument_xlsx_found (keywords : List String) (name : String)
    (sheets : List Sheet) (h : endsWithL (lowerL name.data) ".xlsx".data = true) :
    (searchDocumentForKeywords keywords ⟨name, .xlsxContent (.ok sheets)⟩).found
      = scanSheets (compileAlts keywords) sheets := by
  have h1 := not_pdf_of_xlsx h
  have h2 := not_docx_of_xlsx h
  simp [searchDocumentForKeywords, scanWith, h1, h2, h]

/-- C5: for every XLSX document (with its distinct sheet names), each cell
yields at most one `CellMatch` in the scan result — the `(sheet,
cell_reference)` keys of the result are pairwise distinct, even when a
cell's text contains hits for several keywords — every item's
`cell_reference` is exactly the Column Addressing letters of its column
followed by its row number, and in the concrete example with both "alpha"
and "beta" in cell B3 the result mentions reference "B3" exactly once. -/
theorem spec_c5 :
    (∀ (keywords : List String) (name : String) (sheets : List Sheet),
        endsWithL (lowerL name.data) ".xlsx".data = true →
        (sheets.map Sheet.name).Nodup →
        (((searchDocumentForKeywords keywords ⟨name, .xlsxContent (.ok sheets)⟩).found).map
            fun b => (itemSheet b, itemCell b)).Nodup)
      ∧ (∀ (keywords : List String) (name : String) (sheets : List Sheet),
          endsWithL (lowerL name.data) ".xlsx".data = true →
          ∀ b ∈ (searchDocumentForKeywords keywords ⟨name, .xlsxContent (.ok sheets)⟩).found,
            itemCell b = cellRefStr (itemRow b) (itemCol b))
      ∧ ((searchDocumentForKeywords ["alpha", "beta"]
            ⟨"wb.xlsx", .xlsxContent (.ok [⟨"Sheet1",
              [[some "x", none], [], [none, some "alpha beta"]]⟩])⟩).found.countP
          fun b => itemCell b == "B3") = 1 := by
  refine ⟨?_, ?_, by decide⟩
  · intro keywords name sheets hx hnd
    rw [searchDocument_xlsx_found keywords name sheets hx]
    have hp := scanSheets_pairwise (compileAlts keywords) sheets hnd
    exact List.Pairwise.map _ (fun a b h => h) hp
  · intro keywords name sheets hx b hb
    rw [searchDocument_xlsx_found keywords name sheets hx] at hb
    exact (scanSheets_mem (compileAlts keywords) sheets b hb).2.2.2

/-- C5 witness: the dedup and consistency statements instantiated at the
"alpha"/"beta" workbook. -/
theorem spec_c5_witness :
    endsWithL (lowerL "wb.xlsx".data) ".xlsx".data = true
      ∧ (([⟨"Sheet1", [[some "x", none], [], [none, some "alpha beta"]]⟩] :
            List Sheet).map Sheet.name).Nodup
      ∧ (((searchDocumentForKeywords ["alpha", "beta"]
            ⟨"wb.xlsx", .xlsxContent (.ok [⟨"Sheet1",
              [[some "x", none], [], [none, some "alpha beta"]]⟩])⟩).found).map
            fun b => (itemSheet b, itemCell b)).Nodup :=
  ⟨by decide, by decide,
    spec_c5.1 ["alpha", "beta"] "wb.xlsx"
      [⟨"Sheet1", [[some "x", none], [], [none, some "alpha beta"]]⟩]
      (by decide) (by decide)⟩

/-! ## Claim C7 -/

theorem mem_getD_of_mem {α} (d : α) :
    ∀ (l : List α) (a : α), a ∈ l → ∃ j, j < l.length ∧ l.getD j d = a := by
  intro l
  induction l with
  | nil =>
    intro a ha
    exact absurd ha (List.not_mem_nil a)
  | cons x t ih =>
    intro a ha
    rcases List.mem_cons.mp ha with ha | ha
    · exact ⟨0, Nat.succ_pos _, by rw [ha]; rfl⟩
    · obtain ⟨j, hj, hget⟩ := ih a ha
      exact ⟨j + 1, Nat.succ_lt_succ hj, hget⟩

theorem pdfIdx_two_four (alts : List (List Char)) (texts : List (Option String))
    (hlen : 4 ≤ texts.length)
    (hhit : ∀ i, i < texts.length → pageHit alts (texts.getD i none) = decide (i = 1 ∨ i = 3)) :
    pdfIdx alts texts 1 = [2, 4] := by
  match texts, hlen with
  | t0 :: t1 :: t2 :: t3 :: rest, _ =>
    have h0 := hhit 0 (by simp)
    have h1 := hhit 1 (by simp)
    have h2 := hhit 2 (by simp)
    have h3 := hhit 3 (by simp)
    simp only [List.getD_cons_zero, List.getD_cons_succ] at h0 h1 h2 h3
    have hrest : ∀ t ∈ rest, pageHit alts t = false := by
      intro t ht
      obtain ⟨j, hj, hget⟩ := mem_getD_of_mem none rest t ht
      have := hhit (j + 4) (by simp; omega)
      simp only [List.getD_cons_succ, hget] at this
      rw [this]
      simp only [decide_eq_false_iff_not]
      omega
    simp only [pdfIdx, h0, h1, h2, h3,
      pdfIdx_nil_of_false alts rest hrest 5]
    simp

/-- C7: for every PDF (that opens and whose pages extract without raising)
with at least 4 pages in which exactly pages 2 and 4 contain a keyword in
their extractable text, the scan result is `[page 2, page 4]` — 1-based and
ascending — with no log event; and any PDF all of whose pages yield no
truthy text is silently skipped wholesale: no match and no error. -/
theorem spec_c7 :
    (∀ (keywords : List String) (name : String) (texts : List (Option String)),
        endsWithL (lowerL name.data) ".pdf".data = true →
        4 ≤ texts.length →
        (∀ i, i < texts.length →
          pageHit (compileAlts keywords) (texts.getD i none) = decide (i = 1 ∨ i = 3)) →
        (searchDocumentForKeywords keywords
            ⟨name, .pdfContent (.ok (texts.map PdfPage.ok))⟩).found
            = [FoundItem.page 2, FoundItem.page 4]
          ∧ (searchDocumentForKeywords keywords
            ⟨name, .pdfContent (.ok (texts.map PdfPage.ok))⟩).logs = [])
      ∧ (∀ (keywords : List String) (name : String) (texts : List (Option String)),
          endsWithL (lowerL name.data) ".pdf".data = true →
          (∀ t ∈ texts, pageTruthy t = false) →
          (searchDocumentForKeywords keywords
              ⟨name, .pdfContent (.ok (texts.map PdfPage.ok))⟩).found = []
            ∧ (searchDocumentForKeywords keywords
              ⟨name, .pdfContent (.ok (texts.map PdfPage.ok))⟩).logs = []) := by
  constructor
  · intro keywords name texts h hlen hhit
    rw [searchDocument_pdf keywords name (.ok (texts.map PdfPage.ok)) h]
    simp only [pdfLoop_ok]
    rw [pdfIdx_two_four (compileAlts keywords) texts hlen hhit]
    exact ⟨rfl, trivial⟩
  · intro keywords name texts h hfalsy
    rw [searchDocument_pdf keywords name (.ok (texts.map PdfPage.ok)) h]
    simp only [pdfLoop_ok]
    rw [pdfIdx_nil_of_false (compileAlts keywords) texts
      (fun t ht => pageHit_false_of_not_truthy (compileAlts keywords) t (hfalsy t ht)) 1]
    exact ⟨rfl, trivial⟩

/-- C7 witness: a 5-page PDF whose pages 2 and 4 (1-based) contain "cat"
(page 4 in upper case followed by punctuation), whose page 3 extracts to
`None` and page 5 to the empty string. -/
theorem spec_c7_witness :
    endsWithL (lowerL "doc.pdf".data) ".pdf".data = true
      ∧ 4 ≤ ([some "x", some "a cat", none, some "CAT!", some ""] :
          List (Option String)).length
      ∧ ((searchDocumentForKeywords ["cat"]
            ⟨"doc.pdf", .pdfContent (.ok (([some "x", some "a cat", none, some "CAT!", some ""] :
              List (Option String)).map PdfPage.ok))⟩).found
            = [FoundItem.page 2, FoundItem.page 4]
          ∧ (searchDocumentForKeywords ["cat"]
            ⟨"doc.pdf", .pdfContent (.ok (([some "x", some "a cat", none, some "CAT!", some ""] :
              List (Option String)).map PdfPage.ok))⟩).logs = []) :=
  ⟨by decide, by decide,
    spec_c7.1 ["cat"] "doc.pdf" [some "x", some "a cat", none, some "CAT!", some ""]
      (by decide) (by decide) (by decide)⟩
